import Mathlib

/-!
Verification development for the station-guessing-game repository.

Shallow embedding of the core logic of:
- `process_station_data.py` (station aggregation pipeline),
- `app.py` / `app_cloud.py` (distance, selection, summary engines),
- `kanto_xyz_generator.py` (Web-Mercator projection and line rasterization).

Python floats are modelled as `ℚ` where only field arithmetic and order are
used, and as `ℝ` where transcendental functions (`sin`, `log`, `asin`,
`atan2`, `sqrt`) occur.  Python `random.choice` is modelled by an explicit
index oracle `r : ℕ`, reduced modulo the pool size.  Fallible operations
return `Option`.
-/

namespace StationGame

/-! ## Embedding of `process_station_data.py` -/

/-- A coordinate as it appears in GeoJSON: a list of numbers
(the code checks `len(coord) >= 2` before using entries 0 and 1). -/
abbrev Coord := List ℚ

/-- GeoJSON geometry, as dispatched on by `extract_coordinates`. -/
inductive Geometry where
  | point (c : Coord)
  | multiPoint (cs : List Coord)
  | lineString (cs : List Coord)
  | multiLineString (lines : List (List Coord))
  | polygon (rings : List (List Coord))
  | multiPolygon (polys : List (List (List Coord)))
deriving DecidableEq

/-- `extract_coordinates(geometry)` from `process_station_data.py`:
flattens any geometry to a flat list of coordinates. -/
def extract_coordinates : Geometry → List Coord
  | .point c => [c]
  | .multiPoint cs => cs
  | .lineString cs => cs
  | .multiLineString lines => lines.flatten
  | .polygon rings => rings.flatten
  | .multiPolygon polys => polys.flatten.flatten

/-- A GeoJSON feature of the passenger dataset: an optional geometry plus the
two properties the pipeline reads (`S12_001` station name, `S12_057`
passenger count); `none` models a missing key. -/
structure Feature where
  geometry : Option Geometry
  S12_001 : Option String
  S12_057 : Option Int
deriving DecidableEq

/-- `is_in_kanto_range(lon, lat)`: inclusive bounding-box test with
`KANTO_BBOX = (139.3389, 35.4948, 139.9349, 35.8284)`. -/
def is_in_kanto_range (lon lat : ℚ) : Bool :=
  decide (139.3389 ≤ lon ∧ lon ≤ 139.9349 ∧ 35.4948 ≤ lat ∧ lat ≤ 35.8284)

/-- One coordinate passes the per-coordinate check of the filter loop:
`len(coord) >= 2` and `is_in_kanto_range(coord[0], coord[1])`. -/
def coordInKanto : Coord → Bool
  | lon :: lat :: _ => is_in_kanto_range lon lat
  | _ => false

/-- Coordinates of a feature (`extract_coordinates(feature["geometry"])`,
empty when the geometry is missing). -/
def featureCoords (f : Feature) : List Coord :=
  match f.geometry with
  | none => []
  | some g => extract_coordinates g

/-- The filter deciding membership in `kanto_stations`: geometry present,
coordinates nonempty, and some coordinate (with at least 2 entries) inside
the Kanto bounding box. -/
def featureInKanto (f : Feature) : Bool :=
  match f.geometry with
  | none => false
  | some g => (extract_coordinates g).any coordInKanto

/-- `station["properties"].get("S12_001", "")`. -/
def stationName (f : Feature) : String :=
  match f.S12_001 with
  | some n => n
  | none => ""

/-- `station["properties"].get("S12_057", 0)`. -/
def stationPassengers (f : Feature) : Int :=
  match f.S12_057 with
  | some p => p
  | none => 0

/-- One step of building the `station_groups` key list: a nonempty name is
recorded at its first occurrence (Python `defaultdict` preserves insertion
order of keys). -/
def insertName (acc : List String) (n : String) : List String :=
  if n ≠ "" ∧ n ∉ acc then acc ++ [n] else acc

/-- The group keys of `station_groups`, in first-occurrence order. -/
def groupNames (fs : List Feature) : List String :=
  fs.foldl (fun acc f => insertName acc (stationName f)) []

/-- The members of the group keyed `n`, in input order. -/
def groupMembers (fs : List Feature) (n : String) : List Feature :=
  fs.filter (fun f => stationName f = n)

/-- The `total_passengers` accumulation of the group loop:
`if passengers: total_passengers += passengers` (Python truthiness of an
integer is `≠ 0`). -/
def totalPassengers (members : List Feature) : Int :=
  members.foldl
    (fun total f =>
      let p := stationPassengers f
      if p ≠ 0 then total + p else total) 0

/-- The `all_coords` accumulation: every coordinate with at least two
entries, over all members in order. -/
def allCoords (members : List Feature) : List Coord :=
  (members.map (fun f => (featureCoords f).filter (fun c => 2 ≤ c.length))).flatten

/-- The `unique_coords` deduplication loop: keep the first occurrence of
each coordinate, preserving order. -/
def dedupFirst (l : List Coord) : List Coord :=
  l.foldl (fun acc c => if c ∈ acc then acc else acc ++ [c]) []

/-- An integrated station record as emitted by `process_station_data`
(the `properties` and `geometry` of the output feature). -/
structure IntegratedStation where
  station_name : String
  total_passengers : Int
  station_count : Nat
  original_stations : Nat
  geometry : Geometry
deriving DecidableEq

/-- The body of the group loop: build the integrated station for group `n`
with member list `members`, or drop the group when `unique_coords` is empty
or the summed passenger count is not positive. -/
def mkStation (n : String) (members : List Feature) : Option IntegratedStation :=
  let total := totalPassengers members
  let uc := dedupFirst (allCoords members)
  if uc ≠ [] ∧ 0 < total then
    some { station_name := n
           total_passengers := total
           station_count := members.length
           original_stations := members.length
           geometry := match uc with
             | [c] => .point c
             | _ => .multiPoint uc }
  else none

/-- `integrated_stations` before the final sort: one optional station per
group, in group first-occurrence order. -/
def integrated_stations (ks : List Feature) : List IntegratedStation :=
  (groupNames ks).filterMap (fun n => mkStation n (groupMembers ks n))

/-- Stable insertion of `a` into a list sorted descending by `key`:
`a` is placed after every element of key ≥ its own. -/
def insertDescBy (key : α → Int) (a : α) : List α → List α
  | [] => [a]
  | b :: bs => if key a ≤ key b then b :: insertDescBy key a bs else a :: b :: bs

/-- A stable descending sort by an integer key, modelling Python
`sorted(..., key=..., reverse=True)` / `list.sort(..., reverse=True)`
(stable: elements with equal keys keep their relative order). -/
def sortDescBy (key : α → Int) (l : List α) : List α :=
  l.foldl (fun acc a => insertDescBy key a acc) []

/-- `process_station_data`: bounding-box filter, group by name, integrate
each group, sort by total passengers descending.  File I/O and printing are
outside the embedding. -/
def process_station_data (fs : List Feature) : List IntegratedStation :=
  sortDescBy (fun s => s.total_passengers)
    (integrated_stations (fs.filter featureInKanto))

/-! ## Embedding of `app.py` (gameplay engine)

`app.py` and `app_cloud.py` contain identical `select_random_station`,
`get_top5_stations` and `calculate_game_summary` functions; they are
embedded once.  Their `calculate_distance` functions differ (`asin` vs
`atan2` completion) and are embedded separately. -/

/-- A station record as built by `load_stations` in `app.py`. -/
structure AppStation where
  name : String
  lat : ℚ
  lon : ℚ
  passengers : Int
  station_count : Nat
  line : String
  company : String
deriving DecidableEq

/-- `calculate_distance(lat1, lon1, lat2, lon2)` from `app.py`: haversine
with Earth radius 6371 km and the `asin` completion. -/
noncomputable def calculate_distance (lat1 lon1 lat2 lon2 : ℝ) : ℝ :=
  let R : ℝ := 6371
  let lat1_rad := lat1 * (Real.pi / 180)
  let lat2_rad := lat2 * (Real.pi / 180)
  let lon1_rad := lon1 * (Real.pi / 180)
  let lon2_rad := lon2 * (Real.pi / 180)
  let dlat := lat2_rad - lat1_rad
  let dlon := lon2_rad - lon1_rad
  let a := Real.sin (dlat / 2) ^ 2 +
    Real.cos lat1_rad * Real.cos lat2_rad * Real.sin (dlon / 2) ^ 2
  let c := 2 * Real.arcsin (Real.sqrt a)
  R * c

/-- Python `math.atan2(y, x)`. -/
noncomputable def atan2 (y x : ℝ) : ℝ :=
  if 0 < x then Real.arctan (y / x)
  else if x < 0 ∧ 0 ≤ y then Real.arctan (y / x) + Real.pi
  else if x < 0 then Real.arctan (y / x) - Real.pi
  else if 0 < y then Real.pi / 2
  else if y < 0 then -(Real.pi / 2)
  else 0

namespace AppCloud

/-- `calculate_distance(lat1, lon1, lat2, lon2)` from `app_cloud.py`:
haversine with Earth radius 6371 km and the `atan2` completion. -/
noncomputable def calculate_distance (lat1 lon1 lat2 lon2 : ℝ) : ℝ :=
  let R : ℝ := 6371
  let lat1_rad := lat1 * (Real.pi / 180)
  let lat2_rad := lat2 * (Real.pi / 180)
  let delta_lat := (lat2 - lat1) * (Real.pi / 180)
  let delta_lon := (lon2 - lon1) * (Real.pi / 180)
  let a := Real.sin (delta_lat / 2) ^ 2 +
    Real.cos lat1_rad * Real.cos lat2_rad * Real.sin (delta_lon / 2) ^ 2
  let c := 2 * atan2 (Real.sqrt a) (Real.sqrt (1 - a))
  R * c

end AppCloud

/-- `select_random_station(stations, difficulty_level)`: sort by passengers
descending, drop the top 5, narrow to the first `difficulty_level` entries
unless `difficulty_level` covers the whole remainder, and pick uniformly at
random.  `random.choice` is modelled by the index oracle `r`, reduced
modulo the pool size; the `none` result models the `IndexError` raised by
`random.choice` on an empty pool. -/
def select_random_station (stations : List AppStation) (difficulty_level : ℕ)
    (r : ℕ) : Option AppStation :=
  let sorted_stations := sortDescBy (fun s => s.passengers) stations
  let available_stations := sorted_stations.drop 5
  if available_stations.length ≤ difficulty_level then
    available_stations[r % available_stations.length]?
  else
    let top_stations := available_stations.take difficulty_level
    top_stations[r % top_stations.length]?

/-- `get_top5_stations(stations)`: the first 5 entries of the
passenger-descending sort. -/
def get_top5_stations (stations : List AppStation) : List AppStation :=
  (sortDescBy (fun s => s.passengers) stations).take 5

/-- A round-result record as read by `calculate_game_summary`; the summary
only reads the `distance` entry of each result dict. -/
structure GameResult where
  distance : ℚ
deriving DecidableEq

/-- The summary statistics dict built by `calculate_game_summary`. -/
structure GameSummary where
  total_rounds : ℕ
  best_distance : ℚ
  worst_distance : ℚ
  average_distance : ℚ
  total_distance : ℚ
  perfect_guesses : ℕ
  good_guesses : ℕ
  ok_guesses : ℕ
  poor_guesses : ℕ
deriving DecidableEq

/-- `calculate_game_summary(game_results)`: `None` on an empty sequence,
otherwise min/max/mean/total distance and the four distance buckets. -/
def calculate_game_summary : List GameResult → Option GameSummary
  | [] => none
  | g :: gs =>
    let distances := (g :: gs).map (fun res => res.distance)
    some
      { total_rounds := (g :: gs).length
        best_distance := (gs.map (fun res => res.distance)).foldl min g.distance
        worst_distance := (gs.map (fun res => res.distance)).foldl max g.distance
        average_distance := distances.sum / (distances.length : ℚ)
        total_distance := distances.sum
        perfect_guesses := (distances.filter (fun d => decide (d < 0.5))).length
        good_guesses := (distances.filter (fun d => decide (0.5 ≤ d ∧ d < 2.0))).length
        ok_guesses := (distances.filter (fun d => decide (2.0 ≤ d ∧ d < 5.0))).length
        poor_guesses := (distances.filter (fun d => decide (5.0 ≤ d))).length }

/-! ## Embedding of `kanto_xyz_generator.py` (projection and rasterization) -/

/-- `TILE_SIZE = 256`. -/
def TILE_SIZE : ℕ := 256

/-- `lonlat_to_global_pixel(lon, lat, z)`: spherical Web-Mercator global
pixel coordinates for 256-pixel tiles, with `sin(lat)` clamped to
`[-0.9999, 0.9999]`. -/
noncomputable def lonlat_to_global_pixel (lon lat : ℝ) (z : ℕ) : ℝ × ℝ :=
  let siny := Real.sin (lat * (Real.pi / 180))
  let sinyClamped := min (max siny (-0.9999)) 0.9999
  let scale : ℝ := 256 * 2 ^ z
  ((lon + 180.0) / 360.0 * scale,
   (0.5 - Real.log ((1 + sinyClamped) / (1 - sinyClamped)) / (4 * Real.pi)) * scale)

/-- `to_tile_local_xy(lon, lat, z, x_tile, y_tile)`: subtract
`x_tile*TILE_SIZE, y_tile*TILE_SIZE` from the global pixel coordinates. -/
noncomputable def to_tile_local_xy (lon lat : ℝ) (z : ℕ) (x_tile y_tile : ℤ) :
    ℝ × ℝ :=
  let g := lonlat_to_global_pixel lon lat z
  (g.1 - x_tile * (TILE_SIZE : ℝ), g.2 - y_tile * (TILE_SIZE : ℝ))

/-- Python 3 `round` on an exact value: round half to even
(`round(0.5) == 0`, `round(1.5) == 2`, `round(2.5) == 2`,
`round(-0.5) == 0`, `round(-1.5) == -2`). -/
def pyRound (q : ℚ) : ℤ :=
  let f := ⌊q⌋
  let frac := q - (f : ℚ)
  if frac < 1 / 2 then f
  else if 1 / 2 < frac then f + 1
  else if f % 2 = 0 then f else f + 1

/-- A stroked-line drawing command, recording the arguments `draw_line`
passes to `ImageDraw.line` (the pixel width is
`int(max(1, round(width)))`). -/
structure LineCmd where
  pts : List (ℚ × ℚ)
  color : String
  width : ℤ
deriving DecidableEq

/-- `draw_line(draw, pts, color, width)`: emits a stroke command only when
the point list has at least two points; the stroke width is
`int(max(1, round(width)))`. -/
def draw_line (pts : List (ℚ × ℚ)) (color : String) (width : ℚ) : Option LineCmd :=
  if 2 ≤ pts.length then
    some { pts := pts, color := color, width := max 1 (pyRound width) }
  else none

/-! ## Concrete demonstration inputs used by witnesses and counterexamples -/

/-- A concrete 6-station catalog (passengers 600, 500, ..., 100). -/
def demoStations : List AppStation :=
  [⟨r"s1", 35, 139, 600, 1, r"l", r"c"⟩,
   ⟨r"s2", 35, 139, 500, 1, r"l", r"c"⟩,
   ⟨r"s3", 35, 139, 400, 1, r"l", r"c"⟩,
   ⟨r"s4", 35, 139, 300, 1, r"l", r"c"⟩,
   ⟨r"s5", 35, 139, 200, 1, r"l", r"c"⟩,
   ⟨r"s6", 35, 139, 100, 1, r"l", r"c"⟩]

def demoResult : GameResult := { distance := 1 }
def demoSummary : GameSummary :=
  { total_rounds := 1, best_distance := 1, worst_distance := 1,
    average_distance := 1, total_distance := 1, perfect_guesses := 0,
    good_guesses := 1, ok_guesses := 0, poor_guesses := 0 }

def demoPts : List (ℚ × ℚ) := [(0, 0), (1, 1)]
def demoColor : String := r"red"
def demoCmd : LineCmd := { pts := demoPts, color := demoColor, width := 3 }

def demoNameA : String := r"a"

def demoNameB : String := r"b"

/-- A feature inside the Kanto bounding box, named `a`, with 5 passengers. -/
def demoFeatureA : Feature :=
  { geometry := some (.point [139.5, 35.6]), S12_001 := some demoNameA,
    S12_057 := some 5 }

/-- A feature inside the Kanto bounding box, named `b`, with 5 passengers. -/
def demoFeatureB : Feature :=
  { geometry := some (.point [139.5, 35.6]), S12_001 := some demoNameB,
    S12_057 := some 5 }

/-- A feature inside the Kanto bounding box with no `S12_001` property. -/
def demoFeatureNoName : Feature :=
  { geometry := some (.point [139.5, 35.6]), S12_001 := none, S12_057 := some 5 }

def demoStationA : IntegratedStation :=
  { station_name := demoNameA, total_passengers := 5, station_count := 1,
    original_stations := 1, geometry := .point [139.5, 35.6] }

def demoStationB : IntegratedStation :=
  { station_name := demoNameB, total_passengers := 5, station_count := 1,
    original_stations := 1, geometry := .point [139.5, 35.6] }

/-! ## Lemmas about the stable descending sort -/

lemma insertDescBy_perm (key : α → Int) (a : α) (l : List α) :
    List.Perm (insertDescBy key a l) (a :: l) := by
  induction l with
  | nil => exact List.Perm.refl _
  | cons b bs ih =>
    rw [insertDescBy]
    split
    · exact (ih.cons b).trans (List.Perm.swap a b bs)
    · exact List.Perm.refl _

lemma foldl_insertDescBy_perm (key : α → Int) (l acc : List α) :
    List.Perm (l.foldl (fun acc a => insertDescBy key a acc) acc) (acc ++ l) := by
  induction l generalizing acc with
  | nil => simp
  | cons a l ih =>
    refine (ih (insertDescBy key a acc)).trans ?_
    refine (((insertDescBy_perm key a acc).append_right l).trans ?_)
    exact (List.perm_middle).symm

lemma sortDescBy_perm (key : α → Int) (l : List α) :
    List.Perm (sortDescBy key l) l := by
  simpa using foldl_insertDescBy_perm key l []

lemma mem_insertDescBy (key : α → Int) (a x : α) (l : List α) :
    x ∈ insertDescBy key a l ↔ x = a ∨ x ∈ l := by
  have := (insertDescBy_perm key a l).mem_iff (a := x)
  simpa using this

lemma insertDescBy_pairwise (key : α → Int) (a : α) (l : List α)
    (h : l.Pairwise (fun x y => key y ≤ key x)) :
    (insertDescBy key a l).Pairwise (fun x y => key y ≤ key x) := by
  induction l with
  | nil => simp [insertDescBy]
  | cons b bs ih =>
    rw [insertDescBy]
    rcases List.pairwise_cons.mp h with ⟨hb, hbs⟩
    split
    · rename_i hab
      refine List.pairwise_cons.mpr ⟨?_, ih hbs⟩
      intro x hx
      rcases (mem_insertDescBy key a x bs).mp hx with rfl | hx
      · exact hab
      · exact hb x hx
    · rename_i hab
      push_neg at hab
      refine List.pairwise_cons.mpr ⟨?_, h⟩
      intro x hx
      rcases hx with _ | hx
      · exact le_of_lt hab
      · exact le_trans (hb x (by assumption)) (le_of_lt hab)

lemma sortDescBy_pairwise (key : α → Int) (l : List α) :
    (sortDescBy key l).Pairwise (fun x y => key y ≤ key x) := by
  suffices h : ∀ acc : List α, acc.Pairwise (fun x y => key y ≤ key x) →
      (l.foldl (fun acc a => insertDescBy key a acc) acc).Pairwise
        (fun x y => key y ≤ key x) by
    exact h [] (by simp)
  induction l with
  | nil => intro acc hacc; simpa using hacc
  | cons a l ih =>
    intro acc hacc
    exact ih _ (insertDescBy_pairwise key a acc hacc)

lemma sortDescBy_length (key : α → Int) (l : List α) :
    (sortDescBy key l).length = l.length :=
  (sortDescBy_perm key l).length_eq

/-! ## C1: the selection pool of `select_random_station` -/

/-- C1: for every station list with more than 5 entries and every
difficulty rank ≥ 1, `select_random_station` returns a station of the
sub-list obtained by sorting by passengers descending, dropping the first
5 entries and taking the first `difficulty_rank` entries of the remainder
(all of it when the rank covers it); in particular (for a duplicate-free
station list) the result is never one of the top-5 stations. -/
theorem C1_select_random_station_pool (stations : List AppStation)
    (difficulty_rank r : ℕ) (h5 : 5 < stations.length) (hd : 1 ≤ difficulty_rank) :
    ∃ s, select_random_station stations difficulty_rank r = some s ∧
      s ∈ ((sortDescBy (fun t => t.passengers) stations).drop 5).take difficulty_rank ∧
      (stations.Nodup → s ∉ get_top5_stations stations) := by
  rw [select_random_station]
  set sorted := sortDescBy (fun s => s.passengers) stations with hsorted
  have hlen : sorted.length = stations.length := sortDescBy_length _ _
  have hdl : (sorted.drop 5).length = stations.length - 5 := by
    rw [List.length_drop, hlen]
  have havail : 0 < (sorted.drop 5).length := by omega
  have hmain : ∃ s, (if (sorted.drop 5).length ≤ difficulty_rank then
        (sorted.drop 5)[r % (sorted.drop 5).length]?
      else ((sorted.drop 5).take difficulty_rank)[r %
        ((sorted.drop 5).take difficulty_rank).length]?) = some s ∧
      s ∈ (sorted.drop 5).take difficulty_rank := by
    split
    · rename_i hle
      have hi : r % (sorted.drop 5).length < (sorted.drop 5).length :=
        Nat.mod_lt _ havail
      refine ⟨(sorted.drop 5)[r % (sorted.drop 5).length], ?_, ?_⟩
      · exact List.getElem?_eq_getElem hi
      · rw [List.take_of_length_le hle]
        exact List.getElem_mem _
    · rename_i hgt
      push_neg at hgt
      have hlent : ((sorted.drop 5).take difficulty_rank).length = difficulty_rank := by
        rw [List.length_take]
        omega
      have hpos : 0 < ((sorted.drop 5).take difficulty_rank).length := by omega
      have hi : r % ((sorted.drop 5).take difficulty_rank).length <
          ((sorted.drop 5).take difficulty_rank).length := Nat.mod_lt _ hpos
      exact ⟨((sorted.drop 5).take difficulty_rank)[r % _], List.getElem?_eq_getElem hi,
        List.getElem_mem _⟩
  rcases hmain with ⟨s, hsel, hmem⟩
  refine ⟨s, hsel, hmem, ?_⟩
  intro hnd hstop
  have hnds : sorted.Nodup := ((sortDescBy_perm _ _).nodup_iff).mpr hnd
  have hdrop : s ∈ sorted.drop 5 := List.mem_of_mem_take hmem
  exact (List.disjoint_take_drop hnds (le_refl 5)) hstop hdrop

/-- C1 witness: the theorem instantiated on a concrete 6-station catalog
with difficulty rank 1. -/
theorem C1_select_random_station_pool_witness :
    ∃ s, select_random_station demoStations 1 0 = some s ∧
      s ∈ ((sortDescBy (fun t => t.passengers) demoStations).drop 5).take 1 ∧
      (demoStations.Nodup → s ∉ get_top5_stations demoStations) :=
  C1_select_random_station_pool demoStations 1 0 (by decide) (by decide)

/-! ## C8: empty input to the summary engine -/

/-- C8: on an empty result sequence `calculate_game_summary` computes no
statistics and returns the defined null result `None`. -/
theorem C8_empty_results_summary : calculate_game_summary [] = none := rfl

/-! ## C7: the summary bucket partition -/
lemma bucket_indicator (d : ℚ) :
    ((if d < 0.5 then 1 else 0) + (if 0.5 ≤ d ∧ d < 2.0 then 1 else 0) +
     (if 2.0 ≤ d ∧ d < 5.0 then 1 else 0) + (if 5.0 ≤ d then 1 else 0) : ℕ) = 1 := by
  rcases lt_or_le d (0.5 : ℚ) with h1 | h1
  · have h2 : ¬((0.5 : ℚ) ≤ d ∧ d < 2.0) := by rintro ⟨h, _⟩; linarith
    have h3 : ¬((2.0 : ℚ) ≤ d ∧ d < 5.0) := by rintro ⟨h, _⟩; linarith
    have h4 : ¬((5.0 : ℚ) ≤ d) := by intro h; linarith
    simp [h1, h2, h3, h4]
  · rcases lt_or_le d (2.0 : ℚ) with h2 | h2
    · have hnot1 : ¬(d < (0.5 : ℚ)) := not_lt.mpr h1
      have h3 : ¬((2.0 : ℚ) ≤ d ∧ d < 5.0) := by rintro ⟨h, _⟩; linarith
      have h4 : ¬((5.0 : ℚ) ≤ d) := by intro h; linarith
      simp [hnot1, h1, h2, h3, h4]
    · rcases lt_or_le d (5.0 : ℚ) with h3 | h3
      · have hnot1 : ¬(d < (0.5 : ℚ)) := by intro h; linarith
        have hnot2 : ¬((0.5 : ℚ) ≤ d ∧ d < 2.0) := by rintro ⟨_, h⟩; linarith
        have h4 : ¬((5.0 : ℚ) ≤ d) := by intro h; linarith
        simp [hnot1, hnot2, h2, h3, h4]
      · have hnot1 : ¬(d < (0.5 : ℚ)) := by intro h; linarith
        have hnot2 : ¬((0.5 : ℚ) ≤ d ∧ d < 2.0) := by rintro ⟨_, h⟩; linarith
        have hnot3 : ¬((2.0 : ℚ) ≤ d ∧ d < 5.0) := by rintro ⟨_, h⟩; linarith
        simp [hnot1, hnot2, hnot3, h3]

lemma bucket_length (l : List ℚ) :
    (l.filter (fun d => decide (d < 0.5))).length +
    (l.filter (fun d => decide (0.5 ≤ d ∧ d < 2.0))).length +
    (l.filter (fun d => decide (2.0 ≤ d ∧ d < 5.0))).length +
    (l.filter (fun d => decide (5.0 ≤ d))).length = l.length := by
  induction l with
  | nil => rfl
  | cons d l ih =>
    have hind := bucket_indicator d
    simp only [List.filter_cons, decide_eq_true_eq]
    by_cases h1 : d < (0.5 : ℚ) <;> by_cases h2 : (0.5 : ℚ) ≤ d ∧ d < 2.0 <;>
      by_cases h3 : (2.0 : ℚ) ≤ d ∧ d < 5.0 <;> by_cases h4 : (5.0 : ℚ) ≤ d <;>
      simp only [h1, h2, h3, h4, and_self, not_false_eq_true, ite_true, ite_false,
        if_true, if_false, eq_self_iff_true, List.length_cons, and_true, true_and,
        iff_true, iff_false] at hind ⊢ <;>
      simp_all <;> omega

/-- C7: every result distance falls in exactly one of the four buckets
(perfect `d < 0.5`, good `0.5 ≤ d < 2.0`, ok `2.0 ≤ d < 5.0`, poor
`d ≥ 5.0`), and the four bucket counts of the summary sum to the total
round count. -/
theorem C7_summary_bucket_partition (results : List GameResult) (s : GameSummary)
    (h : calculate_game_summary results = some s) :
    s.perfect_guesses + s.good_guesses + s.ok_guesses + s.poor_guesses = s.total_rounds ∧
    ∀ res ∈ results,
      ((if res.distance < 0.5 then 1 else 0) +
       (if 0.5 ≤ res.distance ∧ res.distance < 2.0 then 1 else 0) +
       (if 2.0 ≤ res.distance ∧ res.distance < 5.0 then 1 else 0) +
       (if 5.0 ≤ res.distance then 1 else 0) : ℕ) = 1 := by
  refine ⟨?_, fun res _ => bucket_indicator res.distance⟩
  match results, h with
  | g :: gs, h =>
    rw [calculate_game_summary] at h
    cases h
    simpa using bucket_length ((g :: gs).map (fun res => res.distance))

lemma calc_demo : calculate_game_summary [demoResult] = some demoSummary := by
  rw [calculate_game_summary]
  norm_num [demoResult, demoSummary, List.filter]

/-- C7 witness: the theorem instantiated on the one-round result list with
distance 1 km. -/
theorem C7_summary_bucket_partition_witness :
    demoSummary.perfect_guesses + demoSummary.good_guesses + demoSummary.ok_guesses +
      demoSummary.poor_guesses = demoSummary.total_rounds ∧
    ∀ res ∈ [demoResult],
      ((if res.distance < 0.5 then 1 else 0) +
       (if 0.5 ≤ res.distance ∧ res.distance < 2.0 then 1 else 0) +
       (if 2.0 ≤ res.distance ∧ res.distance < 5.0 then 1 else 0) +
       (if 5.0 ≤ res.distance then 1 else 0) : ℕ) = 1 :=
  C7_summary_bucket_partition [demoResult] demoSummary calc_demo

/-! ## C9: rasterizer stroke width -/
lemma pyRound_nearest (w : ℚ) (n : ℤ) :
    |(pyRound w : ℚ) - w| ≤ |(n : ℚ) - w| := by
  have hfl : ((⌊w⌋ : ℤ) : ℚ) ≤ w := Int.floor_le w
  have hfu : w < (⌊w⌋ : ℚ) + 1 := Int.lt_floor_add_one w
  have hcase : (pyRound w = ⌊w⌋ ∧ w - ⌊w⌋ ≤ 1 / 2) ∨
      (pyRound w = ⌊w⌋ + 1 ∧ 1 / 2 ≤ w - ⌊w⌋) := by
    rw [pyRound]
    split
    · rename_i hlt; exact Or.inl ⟨rfl, le_of_lt hlt⟩
    · rename_i hge
      push_neg at hge
      split
      · rename_i hgt; exact Or.inr ⟨rfl, le_of_lt hgt⟩
      · rename_i hle
        push_neg at hle
        have heq : w - (⌊w⌋ : ℚ) = 1 / 2 := le_antisymm hle hge
        split
        · exact Or.inl ⟨rfl, hle⟩
        · exact Or.inr ⟨rfl, hge⟩
  rcases le_or_lt (n : ℚ) (⌊w⌋ : ℚ) with hn | hn
  · have habs : |(n : ℚ) - w| = w - n := by
      rw [abs_of_nonpos (by linarith)]; ring
    rcases hcase with ⟨hr, hb⟩ | ⟨hr, hb⟩
    · rw [hr, abs_of_nonpos (by linarith)]
      linarith
    · rw [hr, habs]
      push_cast
      rw [abs_of_nonneg (by linarith)]
      linarith
  · have hn1 : (⌊w⌋ : ℚ) + 1 ≤ (n : ℚ) := by
      have : (⌊w⌋ : ℤ) < n := by exact_mod_cast hn
      exact_mod_cast this
    have habs : |(n : ℚ) - w| = (n : ℚ) - w := by
      rw [abs_of_nonneg (by linarith)]
    rcases hcase with ⟨hr, hb⟩ | ⟨hr, hb⟩
    · rw [hr, abs_of_nonpos (by linarith), habs]
      linarith
    · rw [hr, habs]
      push_cast
      rw [abs_of_nonneg (by linarith)]
      linarith

/-- C9: every stroke command emitted by `draw_line` has an integer width
that is `max 1 r` for `r` a nearest integer to the configured width, hence
never less than 1 pixel. -/
theorem C9_stroke_width_rounding (pts : List (ℚ × ℚ)) (color : String) (w : ℚ) (cmd : LineCmd)
    (h : draw_line pts color w = some cmd) :
    1 ≤ cmd.width ∧ ∃ r : ℤ, (∀ n : ℤ, |(r : ℚ) - w| ≤ |(n : ℚ) - w|) ∧
      cmd.width = max 1 r := by
  rw [draw_line] at h
  split at h
  · cases h
    exact ⟨le_max_left _ _, pyRound w, fun n => pyRound_nearest w n, rfl⟩
  · cases h

lemma draw_demo : draw_line demoPts demoColor 3 = some demoCmd := by
  rw [draw_line, if_pos (by rw [demoPts]; rfl)]
  rw [demoCmd]
  norm_num [pyRound]

/-- C9 witness: the theorem instantiated on a two-point polyline with
configured width 3. -/
theorem C9_stroke_width_rounding_witness :
    1 ≤ demoCmd.width ∧ ∃ r : ℤ, (∀ n : ℤ, |(r : ℚ) - 3| ≤ |(n : ℚ) - 3|) ∧
      demoCmd.width = max 1 r :=
  C9_stroke_width_rounding demoPts demoColor 3 demoCmd draw_demo

/-! ## C5: tile-local coordinates lie in [0, 256) -/
lemma sub_floor_div_mul_bounds (x : ℝ) :
    0 ≤ x - (⌊x / 256⌋ : ℝ) * 256 ∧ x - (⌊x / 256⌋ : ℝ) * 256 < 256 := by
  have h1 : ((⌊x / 256⌋ : ℤ) : ℝ) ≤ x / 256 := Int.floor_le _
  have h2 : x / 256 < (⌊x / 256⌋ : ℝ) + 1 := Int.lt_floor_add_one _
  constructor <;> nlinarith

/-- C5: for every longitude, latitude and zoom, with tile indices taken as
the floors of the global pixel coordinates divided by 256,
`to_tile_local_xy` returns coordinates inside `[0, 256) × [0, 256)`. -/
theorem C5_tile_local_in_bounds (lon lat : ℝ) (z : ℕ) :
    0 ≤ (to_tile_local_xy lon lat z ⌊(lonlat_to_global_pixel lon lat z).1 / 256⌋
        ⌊(lonlat_to_global_pixel lon lat z).2 / 256⌋).1 ∧
    (to_tile_local_xy lon lat z ⌊(lonlat_to_global_pixel lon lat z).1 / 256⌋
        ⌊(lonlat_to_global_pixel lon lat z).2 / 256⌋).1 < 256 ∧
    0 ≤ (to_tile_local_xy lon lat z ⌊(lonlat_to_global_pixel lon lat z).1 / 256⌋
        ⌊(lonlat_to_global_pixel lon lat z).2 / 256⌋).2 ∧
    (to_tile_local_xy lon lat z ⌊(lonlat_to_global_pixel lon lat z).1 / 256⌋
        ⌊(lonlat_to_global_pixel lon lat z).2 / 256⌋).2 < 256 := by
  have hx := sub_floor_div_mul_bounds (lonlat_to_global_pixel lon lat z).1
  have hy := sub_floor_div_mul_bounds (lonlat_to_global_pixel lon lat z).2
  have ht : ((TILE_SIZE : ℕ) : ℝ) = 256 := by norm_num [TILE_SIZE]
  simp only [to_tile_local_xy, ht]
  exact ⟨hx.1, hx.2, hy.1, hy.2⟩

/-! ## C6: haversine distance is symmetric -/
lemma sin_neg_sq (x : ℝ) : Real.sin (-x) ^ 2 = Real.sin x ^ 2 := by
  rw [Real.sin_neg]; ring

/-- C6: the haversine distance is symmetric in its two points, for the
`asin` completion of `app.py` and the `atan2` completion of
`app_cloud.py` alike. -/
theorem C6_distance_symmetry (lat1 lon1 lat2 lon2 : ℝ) :
    calculate_distance lat1 lon1 lat2 lon2 = calculate_distance lat2 lon2 lat1 lon1 ∧
    AppCloud.calculate_distance lat1 lon1 lat2 lon2 =
      AppCloud.calculate_distance lat2 lon2 lat1 lon1 := by
  have key : ∀ u v p q : ℝ,
      Real.sin ((v - u) / 2) ^ 2 + Real.cos u * Real.cos v * Real.sin ((q - p) / 2) ^ 2 =
      Real.sin ((u - v) / 2) ^ 2 + Real.cos v * Real.cos u * Real.sin ((p - q) / 2) ^ 2 := by
    intro u v p q
    rw [show (u - v) / 2 = -((v - u) / 2) by ring, show (p - q) / 2 = -((q - p) / 2) by ring,
      sin_neg_sq, sin_neg_sq]
    ring
  have key2 : ∀ u v p q : ℝ,
      Real.sin ((v - u) * (Real.pi / 180) / 2) ^ 2 +
        Real.cos (u * (Real.pi / 180)) * Real.cos (v * (Real.pi / 180)) *
          Real.sin ((q - p) * (Real.pi / 180) / 2) ^ 2 =
      Real.sin ((u - v) * (Real.pi / 180) / 2) ^ 2 +
        Real.cos (v * (Real.pi / 180)) * Real.cos (u * (Real.pi / 180)) *
          Real.sin ((p - q) * (Real.pi / 180) / 2) ^ 2 := by
    intro u v p q
    rw [show (u - v) * (Real.pi / 180) / 2 = -((v - u) * (Real.pi / 180) / 2) by ring,
      show (p - q) * (Real.pi / 180) / 2 = -((q - p) * (Real.pi / 180) / 2) by ring,
      sin_neg_sq, sin_neg_sq]
    ring
  constructor
  · simp only [calculate_distance]
    rw [key]
  · simp only [AppCloud.calculate_distance]
    rw [key2]

/-! ## Lemmas about the grouping of `process_station_data` -/

lemma mem_insertName (acc : List String) (a n : String) :
    n ∈ insertName acc a ↔ n ∈ acc ∨ (n ≠ "" ∧ n = a) := by
  rw [insertName]
  split
  · rename_i h
    simp only [List.mem_append, List.mem_singleton]
    constructor
    · rintro (hn | rfl)
      · exact Or.inl hn
      · exact Or.inr ⟨h.1, rfl⟩
    · rintro (hn | ⟨_, rfl⟩)
      · exact Or.inl hn
      · exact Or.inr rfl
  · rename_i h
    push_neg at h
    constructor
    · exact Or.inl
    · rintro (hn | ⟨hne, rfl⟩)
      · exact hn
      · exact h hne

lemma mem_foldl_insertName (l : List String) (acc : List String) (n : String) :
    n ∈ l.foldl insertName acc ↔ n ∈ acc ∨ (n ≠ "" ∧ n ∈ l) := by
  induction l generalizing acc with
  | nil => simp
  | cons a l ih =>
    rw [List.foldl_cons, ih, mem_insertName]
    simp only [List.mem_cons]
    tauto

lemma mem_groupNames (fs : List Feature) (n : String) :
    n ∈ groupNames fs ↔ n ≠ "" ∧ ∃ f ∈ fs, stationName f = n := by
  rw [groupNames, ← List.foldl_map, mem_foldl_insertName]
  simp [eq_comm]

lemma insertName_nodup (acc : List String) (a : String) (h : acc.Nodup) :
    (insertName acc a).Nodup := by
  rw [insertName]
  split
  · rename_i hc
    simp [List.nodup_append, h, hc.2]
  · exact h

lemma groupNames_nodup (fs : List Feature) : (groupNames fs).Nodup := by
  rw [groupNames, ← List.foldl_map]
  suffices h : ∀ acc : List String, acc.Nodup →
      ((fs.map stationName).foldl insertName acc).Nodup from h [] (by simp)
  induction (fs.map stationName) with
  | nil => intro acc hacc; exact hacc
  | cons a l ih => intro acc hacc; exact ih _ (insertName_nodup acc a hacc)

/-! ## C3: emitted stations have positive passenger totals -/

lemma mkStation_pos (n : String) (members : List Feature) (st : IntegratedStation)
    (h : mkStation n members = some st) : 0 < st.total_passengers := by
  simp only [mkStation] at h
  split at h
  · rename_i hc
    cases h
    exact hc.2
  · cases h

/-- C3: every station emitted by the aggregation pipeline has a summed
passenger count strictly greater than 0; name groups whose summed count is
not positive are dropped by the `total_passengers > 0` guard. -/
theorem C3_emitted_station_positive_passengers (fs : List Feature) (s : IntegratedStation)
    (h : s ∈ process_station_data fs) : 0 < s.total_passengers := by
  rw [process_station_data] at h
  have h2 : s ∈ integrated_stations (fs.filter featureInKanto) :=
    ((sortDescBy_perm _ _).mem_iff).mp h
  rw [integrated_stations] at h2
  rcases List.mem_filterMap.mp h2 with ⟨n, _, hmk⟩
  exact mkStation_pos _ _ _ hmk

/-! ## C10: features with a missing or empty name are dropped -/

lemma foldl_insertName_filter (l : List String) (acc : List String) :
    (l.filter (fun n => n ≠ "")).foldl insertName acc = l.foldl insertName acc := by
  induction l generalizing acc with
  | nil => rfl
  | cons a l ih =>
    by_cases ha : a = ""
    · subst ha
      rw [List.filter_cons_of_neg (by simp), ih, List.foldl_cons,
        show insertName acc "" = acc from by rw [insertName, if_neg (by simp)]]
    · rw [List.filter_cons_of_pos (by simpa using ha), List.foldl_cons, List.foldl_cons, ih]

lemma groupNames_eq_foldl (fs : List Feature) :
    groupNames fs = (fs.map stationName).foldl insertName [] := by
  rw [groupNames, List.foldl_map]

lemma groupNames_filter_names (ks : List Feature) :
    groupNames (ks.filter (fun f => stationName f ≠ "")) = groupNames ks := by
  rw [groupNames_eq_foldl, groupNames_eq_foldl]
  have hmap : (ks.filter (fun f => stationName f ≠ "")).map stationName
      = (ks.map stationName).filter (fun n => n ≠ "") := by
    rw [List.filter_map]
    rfl
  rw [hmap, foldl_insertName_filter]

lemma groupMembers_filter_names (ks : List Feature) (n : String) (hn : n ≠ "") :
    groupMembers (ks.filter (fun f => stationName f ≠ "")) n = groupMembers ks n := by
  rw [groupMembers, groupMembers, List.filter_filter]
  refine List.filter_congr fun f _ => ?_
  by_cases hf : stationName f = n
  · simp [hf, hn]
  · simp [hf]

lemma integrated_stations_filter_names (ks : List Feature) :
    integrated_stations (ks.filter (fun f => stationName f ≠ "")) = integrated_stations ks := by
  rw [integrated_stations, integrated_stations, groupNames_filter_names]
  refine List.filterMap_congr fun n hn => ?_
  have hne : n ≠ "" := ((mem_groupNames ks n).mp hn).1
  rw [groupMembers_filter_names ks n hne]

/-- C10: features whose `S12_001` property is missing or empty join no
group, contribute to no passenger sum or station count, and never appear in
the output: removing them from the input leaves the output unchanged. -/
theorem C10_nameless_features_dropped (fs : List Feature) :
    process_station_data fs =
      process_station_data (fs.filter (fun f => stationName f ≠ "")) := by
  rw [process_station_data, process_station_data]
  have hcomm : (fs.filter (fun f => stationName f ≠ "")).filter featureInKanto
      = (fs.filter featureInKanto).filter (fun f => stationName f ≠ "") := by
    rw [List.filter_filter, List.filter_filter]
    exact List.filter_congr fun f _ => Bool.and_comm _ _
  rw [hcomm, integrated_stations_filter_names]

/-! ## Concrete demonstration inputs for the aggregation pipeline -/

lemma kanto_demo_coord : is_in_kanto_range 139.5 35.6 = true := by
  simp only [is_in_kanto_range, decide_eq_true_eq]
  norm_num

lemma inKanto_demoA : featureInKanto demoFeatureA = true := by
  rw [show featureInKanto demoFeatureA = (is_in_kanto_range 139.5 35.6 || false) from rfl,
    kanto_demo_coord]
  rfl

lemma inKanto_demoB : featureInKanto demoFeatureB = true := by
  rw [show featureInKanto demoFeatureB = (is_in_kanto_range 139.5 35.6 || false) from rfl,
    kanto_demo_coord]
  rfl

lemma inKanto_demoNoName : featureInKanto demoFeatureNoName = true := by
  rw [show featureInKanto demoFeatureNoName = (is_in_kanto_range 139.5 35.6 || false) from rfl,
    kanto_demo_coord]
  rfl

lemma filter_demoA : List.filter featureInKanto [demoFeatureA] = [demoFeatureA] := by
  simp only [List.filter_cons, List.filter_nil, inKanto_demoA, if_true]

lemma filter_demoAB :
    List.filter featureInKanto [demoFeatureA, demoFeatureB] = [demoFeatureA, demoFeatureB] := by
  simp only [List.filter_cons, List.filter_nil, inKanto_demoA, inKanto_demoB, if_true]

lemma filter_demoBA :
    List.filter featureInKanto [demoFeatureB, demoFeatureA] = [demoFeatureB, demoFeatureA] := by
  simp only [List.filter_cons, List.filter_nil, inKanto_demoA, inKanto_demoB, if_true]

lemma filter_demoNoName :
    List.filter featureInKanto [demoFeatureNoName] = [demoFeatureNoName] := by
  simp only [List.filter_cons, List.filter_nil, inKanto_demoNoName, if_true]

lemma process_demoA : process_station_data [demoFeatureA] = [demoStationA] := by
  rw [process_station_data, filter_demoA]; rfl

lemma process_demoAB :
    process_station_data [demoFeatureA, demoFeatureB] = [demoStationA, demoStationB] := by
  rw [process_station_data, filter_demoAB]; rfl

lemma process_demoBA :
    process_station_data [demoFeatureB, demoFeatureA] = [demoStationB, demoStationA] := by
  rw [process_station_data, filter_demoBA]; rfl

lemma process_demoNoName : process_station_data [demoFeatureNoName] = [] := by
  rw [process_station_data, filter_demoNoName]; rfl

/-- C3 witness: the theorem instantiated on a singleton catalog whose only
station has 5 passengers. -/
theorem C3_emitted_station_positive_passengers_witness :
    0 < demoStationA.total_passengers :=
  C3_emitted_station_positive_passengers [demoFeatureA] demoStationA
    (by simp only [process_demoA, List.mem_singleton])

/-! ## C4: output ordering of the aggregation pipeline -/

/-- C4 counterexample: two surviving features with distinct names and equal
passenger counts; the two orderings of the same input feature set are
permutations of each other, yet the pipeline emits the stations in
different orders (Python stable sort keeps first-occurrence order for
ties), refuting input-order independence. -/
theorem C4_counterexample :
    List.Perm [demoFeatureA, demoFeatureB] [demoFeatureB, demoFeatureA] ∧
      process_station_data [demoFeatureA, demoFeatureB] ≠
        process_station_data [demoFeatureB, demoFeatureA] := by
  refine ⟨List.Perm.swap _ _ _, ?_⟩
  rw [process_demoAB, process_demoBA]
  intro h
  have h1 : demoStationA = demoStationB := by injection h
  have h2 := congrArg IntegratedStation.station_name h1
  simp only [demoStationA, demoStationB] at h2
  simp [demoNameA, demoNameB] at h2

/-- C4 (amended): the output of the aggregation pipeline is sorted by total
passenger count descending.  (The ordering is not independent of the input
feature order when passenger totals tie, see the counterexample; the
stable sort keeps the first-occurrence order of tied name groups.) -/
theorem C4_output_sorted_descending (fs : List Feature) :
    (process_station_data fs).Pairwise
      (fun a b => b.total_passengers ≤ a.total_passengers) :=
  sortDescBy_pairwise _ _

/-! ## C2: the station-count sum of the aggregation output -/

lemma allCoords_ne_nil (members : List Feature) (f : Feature) (hf : f ∈ members)
    (hk : featureInKanto f = true) : allCoords members ≠ [] := by
  cases hg : f.geometry with
  | none =>
    simp only [featureInKanto, hg] at hk
    exact absurd hk (by simp)
  | some g =>
    simp only [featureInKanto, hg] at hk
    rcases List.any_eq_true.mp hk with ⟨c, hc, hck⟩
    have hlen : (2 : ℕ) ≤ c.length := by
      match c, hck with
      | x :: y :: rest, _ => simp only [List.length_cons]; omega
    have hmemc : c ∈ (featureCoords f).filter (fun c => 2 ≤ c.length) := by
      rw [List.mem_filter]
      exact ⟨by rw [featureCoords, hg]; exact hc, by simpa using hlen⟩
    have hmem : c ∈ allCoords members := by
      rw [allCoords, List.mem_flatten]
      exact ⟨_, List.mem_map_of_mem _ hf, hmemc⟩
    exact List.ne_nil_of_mem hmem

lemma foldl_dedup_ne_nil (l : List Coord) (acc : List Coord) (hacc : acc ≠ []) :
    l.foldl (fun acc c => if c ∈ acc then acc else acc ++ [c]) acc ≠ [] := by
  induction l generalizing acc with
  | nil => simpa using hacc
  | cons d l ih =>
    rw [List.foldl_cons]
    refine ih _ ?_
    split
    · exact hacc
    · simp

lemma dedupFirst_ne_nil (l : List Coord) (h : l ≠ []) : dedupFirst l ≠ [] := by
  rw [dedupFirst]
  match l, h with
  | c :: l, _ =>
    rw [List.foldl_cons]
    have hstep : (if c ∈ ([] : List Coord) then ([] : List Coord) else [] ++ [c]) = [c] := by
      simp
    rw [hstep]
    exact foldl_dedup_ne_nil l [c] (by simp)

lemma mkStation_some_of_pos (n : String) (members : List Feature)
    (hne : dedupFirst (allCoords members) ≠ []) (hpos : 0 < totalPassengers members) :
    ∃ st, mkStation n members = some st ∧ st.station_count = members.length := by
  simp only [mkStation]
  rw [if_pos ⟨hne, hpos⟩]
  exact ⟨_, rfl, rfl⟩

lemma mkStation_none_of_nonpos (n : String) (members : List Feature)
    (h : ¬ 0 < totalPassengers members) : mkStation n members = none := by
  simp only [mkStation]
  rw [if_neg]
  rintro ⟨_, hp⟩
  exact h hp

lemma sum_counts_aux (ks : List Feature) (hks : ∀ f ∈ ks, featureInKanto f = true)
    (ns : List String) (hmem : ∀ n ∈ ns, groupMembers ks n ≠ []) :
    ((ns.filterMap (fun n => mkStation n (groupMembers ks n))).map
        (fun s => s.station_count)).sum =
      ((ns.filter (fun n => 0 < totalPassengers (groupMembers ks n))).map
        (fun n => (groupMembers ks n).length)).sum := by
  induction ns with
  | nil => rfl
  | cons n ns ih =>
    have hm : groupMembers ks n ≠ [] := hmem n (by simp)
    have ihr := ih (fun m hm2 => hmem m (by simp [hm2]))
    by_cases hpos : 0 < totalPassengers (groupMembers ks n)
    · obtain ⟨f, hf⟩ : ∃ f, f ∈ groupMembers ks n := List.exists_mem_of_ne_nil _ hm
      have hfk : featureInKanto f = true := hks f (List.mem_of_mem_filter hf)
      have hne := dedupFirst_ne_nil _ (allCoords_ne_nil _ f hf hfk)
      obtain ⟨st, hst, hcount⟩ := mkStation_some_of_pos n _ hne hpos
      have hfm : List.filterMap (fun m => mkStation m (groupMembers ks m)) (n :: ns)
          = st :: List.filterMap (fun m => mkStation m (groupMembers ks m)) ns := by
        rw [List.filterMap_cons, hst]
      rw [hfm, List.filter_cons_of_pos (by simpa using hpos),
        List.map_cons, List.map_cons, List.sum_cons, List.sum_cons, hcount, ihr]
    · have hfm : List.filterMap (fun m => mkStation m (groupMembers ks m)) (n :: ns)
          = List.filterMap (fun m => mkStation m (groupMembers ks m)) ns := by
        rw [List.filterMap_cons, mkStation_none_of_nonpos n _ hpos]
      rw [hfm, List.filter_cons_of_neg (by simpa using hpos), ihr]

lemma length_filter_or_disjoint (p q : Feature → Bool) (l : List Feature)
    (h : ∀ a ∈ l, ¬(p a = true ∧ q a = true)) :
    (l.filter (fun a => p a || q a)).length = (l.filter p).length + (l.filter q).length := by
  induction l with
  | nil => rfl
  | cons a l ih =>
    have hal := h a (by simp)
    have ih2 := ih (fun b hb => h b (by simp [hb]))
    cases hp : p a <;> cases hq : q a
    · rw [List.filter_cons_of_neg (by simp [hp, hq]), List.filter_cons_of_neg (by simp [hp]),
        List.filter_cons_of_neg (by simp [hq]), ih2]
    · rw [List.filter_cons_of_pos (by simp [hp, hq]), List.filter_cons_of_neg (by simp [hp]),
        List.filter_cons_of_pos (by simp [hq])]
      simp only [List.length_cons, ih2]
      omega
    · rw [List.filter_cons_of_pos (by simp [hp, hq]), List.filter_cons_of_pos (by simp [hp]),
        List.filter_cons_of_neg (by simp [hq])]
      simp only [List.length_cons, ih2]
      omega
    · exact absurd ⟨hp, hq⟩ hal

lemma sum_group_lengths (ks : List Feature) (P : String → Bool) (ns : List String)
    (hnd : ns.Nodup) :
    ((ns.filter P).map (fun n => (groupMembers ks n).length)).sum =
      (ks.filter (fun f => decide (stationName f ∈ ns) && P (stationName f))).length := by
  induction ns with
  | nil => simp
  | cons n ns ih =>
    rcases List.nodup_cons.mp hnd with ⟨hn_notin, hnd2⟩
    by_cases hP : P n = true
    · rw [List.filter_cons_of_pos hP, List.map_cons, List.sum_cons, ih hnd2]
      have hsplit : (ks.filter (fun f => decide (stationName f ∈ n :: ns) &&
            P (stationName f))).length
          = (ks.filter (fun f => decide (stationName f = n))).length
            + (ks.filter (fun f => decide (stationName f ∈ ns) && P (stationName f))).length := by
        rw [← length_filter_or_disjoint]
        · refine congrArg _ (List.filter_congr fun f _ => ?_)
          by_cases hf : stationName f = n
          · simp [hf, hP]
          · simp [hf, List.mem_cons]
        · intro f _
          rintro ⟨h1, h2⟩
          have e1 : stationName f = n := of_decide_eq_true h1
          have e2 : stationName f ∈ ns := of_decide_eq_true ((Bool.and_eq_true _ _).mp h2).1
          exact hn_notin (e1 ▸ e2)
      rw [hsplit]
      have hgm : (groupMembers ks n).length
          = (ks.filter (fun f => decide (stationName f = n))).length := rfl
      omega
    · have hPf : P n = false := by simpa using hP
      rw [List.filter_cons_of_neg hP, ih hnd2]
      refine congrArg _ (List.filter_congr fun f _ => ?_)
      by_cases hf : stationName f = n
      · simp [hf, hPf, hn_notin]
      · simp [hf, List.mem_cons]

/-- C2 (amended): the sum of `station_count` over all emitted stations
equals the number of bbox-surviving source features that carry a nonempty
name and whose name group has a positive summed passenger count.  (As
stated, with ALL surviving features counted, the claim fails: nameless
features and zero-passenger groups survive the filter but are dropped, see
the counterexample.) -/
theorem C2_station_count_sum_amended (fs : List Feature) :
    ((process_station_data fs).map (fun s => s.station_count)).sum =
      ((fs.filter featureInKanto).filter (fun f => stationName f ≠ "" ∧
          0 < totalPassengers
            (groupMembers (fs.filter featureInKanto) (stationName f)))).length := by
  set ks := fs.filter featureInKanto with hks_def
  have hks : ∀ f ∈ ks, featureInKanto f = true := fun f hf => (List.mem_filter.mp hf).2
  have h1 : ((process_station_data fs).map (fun s => s.station_count)).sum
      = ((integrated_stations ks).map (fun s => s.station_count)).sum := by
    rw [process_station_data]
    exact ((sortDescBy_perm _ _).map _).sum_eq
  have hmem_ne : ∀ n ∈ groupNames ks, groupMembers ks n ≠ [] := by
    intro n hn
    rcases (mem_groupNames ks n).mp hn with ⟨_, f, hf, hname⟩
    have : f ∈ groupMembers ks n := List.mem_filter.mpr ⟨hf, by simp [hname]⟩
    exact List.ne_nil_of_mem this
  have h2 := sum_counts_aux ks hks (groupNames ks) hmem_ne
  have h3 := sum_group_lengths ks
    (fun n => decide (0 < totalPassengers (groupMembers ks n))) (groupNames ks)
    (groupNames_nodup ks)
  have h4 : (ks.filter (fun f => decide (stationName f ∈ groupNames ks) &&
        decide (0 < totalPassengers (groupMembers ks (stationName f))))).length
      = (ks.filter (fun f => decide (stationName f ≠ "" ∧
          0 < totalPassengers (groupMembers ks (stationName f))))).length := by
    refine congrArg _ (List.filter_congr fun f hf => ?_)
    have hmem_iff : stationName f ∈ groupNames ks ↔ stationName f ≠ "" := by
      rw [mem_groupNames]
      constructor
      · exact fun h => h.1
      · exact fun h => ⟨h, f, hf, rfl⟩
    by_cases hne : stationName f = ""
    · have hnotin : stationName f ∉ groupNames ks := fun hcontra => (hmem_iff.mp hcontra) hne
      simp only [hne] at hnotin ⊢
      simp [hnotin]
    · have hin : stationName f ∈ groupNames ks := hmem_iff.mpr hne
      simp [hin, hne]
  rw [h1, integrated_stations, h2, h3, h4]

/-- C2 counterexample: a single feature inside the bounding box whose name
property is missing survives the filter (1 surviving feature) but the
pipeline emits no station, so the station-count sum is 0, not 1. -/
theorem C2_counterexample :
    ((process_station_data [demoFeatureNoName]).map (fun s => s.station_count)).sum ≠
      (([demoFeatureNoName] : List Feature).filter featureInKanto).length := by
  rw [process_demoNoName, filter_demoNoName]
  simp

end StationGame
